import Mathlib

/-!
Verification of the Automated-testing repository's core algorithms:
the Playwright wait/backoff engine (`src/web/wait.py`), the condition
handler registry (`src/core/base/conditions.py`,
`src/web/condition_handlers.py`), the MD5 request signature
(`src/utils/signature.py`) and the environment-variable configuration
loader (`src/utils/config/loaders.py`).

The Python code is shallowly embedded: pure functions become Lean
functions, the polling loop becomes a fuel-indexed recursion over a
virtual clock (rational seconds; predicate calls are instantaneous and
`time.sleep(w)` advances the clock by exactly `w`), and calls into
external libraries (Playwright, CPython builtins `int`/`float`,
`json.loads`) are abstracted as explicit function parameters.
-/

namespace Spec2Proof

/-! ## MD5 (RFC 1321), used by `hashlib.md5` in `src/utils/signature.py`.

32-bit words are `Nat` values reduced modulo `2 ^ 32`. -/

def w32 : ℕ := 4294967296

/-- Addition modulo 2^32. -/
def add32 (a b : ℕ) : ℕ := (a + b) % w32

/-- Bitwise complement within 32 bits. -/
def not32 (a : ℕ) : ℕ := a ^^^ 4294967295

/-- Left-rotation of a 32-bit word by `n` bits. -/
def rotl32 (a n : ℕ) : ℕ := ((a <<< n) % w32) ||| ((a % w32) >>> (32 - n))

/-- The 64 MD5 sine-derived constants `K[i] = floor(abs(sin(i+1)) * 2^32)`. -/
def md5K : List ℕ :=
  [0xd76aa478, 0xe8c7b756, 0x242070db, 0xc1bdceee, 0xf57c0faf, 0x4787c62a,
   0xa8304613, 0xfd469501, 0x698098d8, 0x8b44f7af, 0xffff5bb1, 0x895cd7be,
   0x6b901122, 0xfd987193, 0xa679438e, 0x49b40821, 0xf61e2562, 0xc040b340,
   0x265e5a51, 0xe9b6c7aa, 0xd62f105d, 0x02441453, 0xd8a1e681, 0xe7d3fbc8,
   0x21e1cde6, 0xc33707d6, 0xf4d50d87, 0x455a14ed, 0xa9e3e905, 0xfcefa3f8,
   0x676f02d9, 0x8d2a4c8a, 0xfffa3942, 0x8771f681, 0x6d9d6122, 0xfde5380c,
   0xa4beea44, 0x4bdecfa9, 0xf6bb4b60, 0xbebfbc70, 0x289b7ec6, 0xeaa127fa,
   0xd4ef3085, 0x04881d05, 0xd9d4d039, 0xe6db99e5, 0x1fa27cf8, 0xc4ac5665,
   0xf4292244, 0x432aff97, 0xab9423a7, 0xfc93a039, 0x655b59c3, 0x8f0ccc92,
   0xffeff47d, 0x85845dd1, 0x6fa87e4f, 0xfe2ce6e0, 0xa3014314, 0x4e0811a1,
   0xf7537e82, 0xbd3af235, 0x2ad7d2bb, 0xeb86d391]

/-- The 64 MD5 per-round left-rotation amounts. -/
def md5S : List ℕ :=
  [7, 12, 17, 22, 7, 12, 17, 22, 7, 12, 17, 22, 7, 12, 17, 22,
   5, 9, 14, 20, 5, 9, 14, 20, 5, 9, 14, 20, 5, 9, 14, 20,
   4, 11, 16, 23, 4, 11, 16, 23, 4, 11, 16, 23, 4, 11, 16, 23,
   6, 10, 15, 21, 6, 10, 15, 21, 6, 10, 15, 21, 6, 10, 15, 21]

/-- MD5 state: the four 32-bit registers. -/
structure MD5State where
  a : ℕ
  b : ℕ
  c : ℕ
  d : ℕ
  deriving Repr, DecidableEq

/-- The MD5 initialisation vector. -/
def md5Init : MD5State := ⟨0x67452301, 0xefcdab89, 0x98badcfe, 0x10325476⟩

/-- Nonlinear function and message index of MD5 step `i`. -/
def md5FG (st : MD5State) (i : ℕ) : ℕ × ℕ :=
  if i < 16 then ((st.b &&& st.c) ||| (not32 st.b &&& st.d), i)
  else if i < 32 then ((st.d &&& st.b) ||| (not32 st.d &&& st.c), (5 * i + 1) % 16)
  else if i < 48 then (st.b ^^^ st.c ^^^ st.d, (3 * i + 5) % 16)
  else (st.c ^^^ (st.b ||| not32 st.d), (7 * i) % 16)

/-- One MD5 step: rotate the mixed value and cycle the registers. -/
def md5Step (msg : ℕ → ℕ) (st : MD5State) (i : ℕ) : MD5State :=
  let fg := md5FG st i
  let f := add32 (add32 fg.1 st.a) (add32 (md5K.getD i 0) (msg fg.2))
  ⟨st.d, add32 st.b (rotl32 f (md5S.getD i 0)), st.b, st.c⟩

/-- Little-endian 32-bit word starting at offset `off` of a byte list. -/
def leWord (block : List ℕ) (off : ℕ) : ℕ :=
  block.getD off 0 + 256 * block.getD (off + 1) 0 +
    65536 * block.getD (off + 2) 0 + 16777216 * block.getD (off + 3) 0

/-- Process one 64-byte block: 64 steps then add the input state back in. -/
def md5Block (st : MD5State) (block : List ℕ) : MD5State :=
  let msg := fun g => leWord block (4 * g)
  let r := (List.range 64).foldl (md5Step msg) st
  ⟨add32 st.a r.a, add32 st.b r.b, add32 st.c r.c, add32 st.d r.d⟩

/-- MD5 padding: `0x80`, zeros to 56 mod 64, then the 64-bit little-endian
bit length of the original message. -/
def md5Pad (m : List ℕ) : List ℕ :=
  let z := (119 - m.length % 64) % 64
  let bits := (m.length * 8) % (2 ^ 64)
  m ++ 0x80 :: List.replicate z 0 ++
    (List.range 8).map (fun i => bits / 2 ^ (8 * i) % 256)

/-- Split a list into `n` consecutive 64-byte blocks. -/
def blocks64 : ℕ → List ℕ → List (List ℕ)
  | 0, _ => []
  | n + 1, l => l.take 64 :: blocks64 n (l.drop 64)

/-- MD5 digest of a byte list, as the list of its 16 output bytes. -/
def md5Bytes (m : List ℕ) : List ℕ :=
  let p := md5Pad m
  let st := (blocks64 (p.length / 64) p).foldl md5Block md5Init
  [st.a, st.b, st.c, st.d].foldr
    (fun w acc => (List.range 4).map (fun i => w / 2 ^ (8 * i) % 256) ++ acc) []

/-- Uppercase hexadecimal digit. -/
def hexDigitU (n : ℕ) : Char :=
  if n < 10 then Char.ofNat (48 + n) else Char.ofNat (55 + n)

/-- Uppercase hexadecimal rendering of a byte list. -/
def hexUpper (bs : List ℕ) : String :=
  String.mk (bs.foldr (fun b acc => hexDigitU (b / 16) :: hexDigitU (b % 16) :: acc) [])

/-- UTF-8 encoding of a single character, as `str.encode("UTF-8")` produces. -/
def utf8Char (c : Char) : List ℕ :=
  let n := c.toNat
  if n < 0x80 then [n]
  else if n < 0x800 then [0xC0 + n / 64, 0x80 + n % 64]
  else if n < 0x10000 then [0xE0 + n / 4096, 0x80 + n / 64 % 64, 0x80 + n % 64]
  else [0xF0 + n / 262144, 0x80 + n / 4096 % 64, 0x80 + n / 64 % 64, 0x80 + n % 64]

/-- UTF-8 encoding of a string. -/
def utf8Bytes (s : String) : List ℕ := s.data.foldr (fun c acc => utf8Char c ++ acc) []

/-- `hashlib.md5(s.encode("UTF-8")).hexdigest().upper()`. -/
def md5HexUpper (s : String) : String := hexUpper (md5Bytes (utf8Bytes s))

/-! ## Python comparison of strings and tuples

Python compares strings lexicographically by code point, and `(k, v)`
tuples by first component, then second.  `sorted` uses this `<`.  These
Boolean versions evaluate in the kernel. -/

/-- Python `<` on characters: code-point comparison. -/
def charLt (a b : Char) : Bool := a.toNat < b.toNat

/-- Python `<` on strings, as a comparison of their character lists:
lexicographic by code point, a strict prefix is smaller. -/
def lexLt : List Char → List Char → Bool
  | _, [] => false
  | [], _ :: _ => true
  | a :: as, b :: bs => charLt a b || (a == b && lexLt as bs)

/-- Non-strict Python string comparison. -/
def lexLe (x y : List Char) : Bool := lexLt x y || x == y

/-- Python `<=` on `(key, value)` string pairs, i.e. tuple comparison:
first by key, then by value. -/
def pairLE (p q : String × String) : Bool :=
  lexLt p.1.data q.1.data || (p.1.data == q.1.data && lexLe p.2.data q.2.data)

/-! ## `calculate_md5_sign` (src/utils/signature.py)

Parameter values are modelled as `Option String`: `none` is Python
`None`, `some v` a string value (the claims under study only concern
string-valued and `None` parameters).  A Python `dict` is modelled as
its `items()` list, in insertion order. -/

/-- Filter step of `calculate_md5_sign` (signature.py line 32-35): drop
entries whose value is `None` or `''` and entries keyed `sign`, `key`
or `appKey`. -/
def sigFilter (params : List (String × Option String)) : List (String × String) :=
  params.filterMap fun kv =>
    match kv.2 with
    | none => none
    | some v =>
      if v ≠ "" ∧ kv.1 ∉ ["sign", "key", "appKey"] then some (kv.1, v) else none

/-- The Prop form of `pairLE`. -/
def PairLEP (p q : String × String) : Prop := pairLE p q = true

instance : DecidableRel PairLEP := fun p q => decEq (pairLE p q) true

/-- The Prop form of key-only string comparison (used by the spec-worded
constructions, which sort by key in ascending code-point order). -/
def KeyLEP (p q : String × String) : Prop := lexLe p.1.data q.1.data = true

instance : DecidableRel KeyLEP := fun p q => decEq (lexLe p.1.data q.1.data) true

/-- `sorted(filtered_params.items())` (signature.py line 40): a stable
sort of the item pairs by Python tuple comparison (Python's `sorted` is
stable; insertion sort realises the same stable sort). -/
def sigSorted (params : List (String × Option String)) : List (String × String) :=
  (sigFilter params).insertionSort PairLEP

/-- `stringA` then `stringSignTemp` (signature.py lines 46-50): join the
sorted items as `k=v` with `&`, then append `&key=` and the secret. -/
def sigString (params : List (String × Option String)) (secret_key : String) : String :=
  String.intercalate "&" ((sigSorted params).map fun kv => kv.1 ++ "=" ++ kv.2) ++
    "&key=" ++ secret_key

/-- `calculate_md5_sign(params_to_sign, secret_key)` with the default
UTF-8 charset: rejects an empty secret with `ValueError`, otherwise
returns the uppercase MD5 hex digest of `stringSignTemp`. -/
def calculate_md5_sign (params_to_sign : List (String × Option String))
    (secret_key : String) : Except String String :=
  if secret_key = "" then Except.error "secret_key 不能为空"
  else Except.ok (md5HexUpper (sigString params_to_sign secret_key))

/-- The signature as claim C6 words it: remove only `None`/empty values
and the entry keyed `sign` (not `key`/`appKey`), sort the remaining
entries by key in ascending code-point order, join as `k=v` with `&`,
append `&key=` and the secret, and take the uppercase MD5 hex digest. -/
def claimC6Sign (params : List (String × Option String)) (secret_key : String) : String :=
  md5HexUpper (String.intercalate "&"
      (((params.filterMap fun kv =>
          kv.2.bind fun v =>
            if v = "" ∨ kv.1 = "sign" then none else some (kv.1, v)).insertionSort
        KeyLEP).map fun kv => kv.1 ++ "=" ++ kv.2) ++
    "&key=" ++ secret_key)

/-- The signature as amended for C6: like `claimC6Sign` but removing the
entries keyed `key` and `appKey` as well, exactly as the code's filter
does. -/
def amendedC6Sign (params : List (String × Option String)) (secret_key : String) : String :=
  md5HexUpper (String.intercalate "&"
      (((params.filterMap fun kv =>
          kv.2.bind fun v =>
            if v = "" ∨ kv.1 = "sign" ∨ kv.1 = "key" ∨ kv.1 = "appKey" then none
            else some (kv.1, v)).insertionSort
        KeyLEP).map fun kv => kv.1 ++ "=" ++ kv.2) ++
    "&key=" ++ secret_key)

/-! ## Order lemmas for the Python comparison relations -/

theorem char_eq_of_toNat_eq {a b : Char} (h : a.toNat = b.toNat) : a = b :=
  Char.ext (UInt32.ext h)

theorem lexLt_irrefl : ∀ x : List Char, lexLt x x = false
  | [] => rfl
  | a :: as => by
    simp only [lexLt, Bool.or_eq_false_iff, Bool.and_eq_false_iff]
    exact ⟨by simp [charLt], Or.inr (lexLt_irrefl as)⟩

theorem lexLt_trans : ∀ {x y z : List Char},
    lexLt x y = true → lexLt y z = true → lexLt x z = true
  | [], [], _, hxy, _ => by cases hxy
  | _ :: _, [], _, hxy, _ => by cases hxy
  | [], _ :: _, [], _, hyz => by cases hyz
  | _ :: _, _ :: _, [], _, hyz => by cases hyz
  | [], _ :: _, _ :: _, _, _ => rfl
  | a :: as, b :: bs, c :: cs, hxy, hyz => by
    simp only [lexLt, Bool.or_eq_true, Bool.and_eq_true, beq_iff_eq, charLt,
      decide_eq_true_eq] at hxy hyz ⊢
    rcases hxy with h1 | ⟨rfl, h1'⟩ <;> rcases hyz with h2 | ⟨rfl, h2'⟩
    · exact Or.inl (Nat.lt_trans h1 h2)
    · exact Or.inl h1
    · exact Or.inl h2
    · exact Or.inr ⟨rfl, lexLt_trans h1' h2'⟩

theorem lexLt_asymm {x y : List Char} (hxy : lexLt x y = true) :
    lexLt y x = false := by
  by_contra h
  have := lexLt_trans hxy (eq_true_of_ne_false h)
  rw [lexLt_irrefl] at this
  cases this

theorem lexLt_trichotomy : ∀ x y : List Char,
    lexLt x y = true ∨ x = y ∨ lexLt y x = true
  | [], [] => Or.inr (Or.inl rfl)
  | [], _ :: _ => Or.inl rfl
  | _ :: _, [] => Or.inr (Or.inr rfl)
  | a :: as, b :: bs => by
    simp only [lexLt, Bool.or_eq_true, Bool.and_eq_true, beq_iff_eq, charLt,
      decide_eq_true_eq]
    rcases Nat.lt_trichotomy a.toNat b.toNat with h | h | h
    · exact Or.inl (Or.inl h)
    · have hab : a = b := char_eq_of_toNat_eq h
      subst hab
      rcases lexLt_trichotomy as bs with h' | h' | h'
      · exact Or.inl (Or.inr ⟨rfl, h'⟩)
      · exact Or.inr (Or.inl (by rw [h']))
      · exact Or.inr (Or.inr (Or.inr ⟨rfl, h'⟩))
    · exact Or.inr (Or.inr (Or.inl h))

theorem lexLe_refl (x : List Char) : lexLe x x = true := by
  simp [lexLe]

theorem lexLe_total (x y : List Char) : lexLe x y = true ∨ lexLe y x = true := by
  simp only [lexLe, Bool.or_eq_true, beq_iff_eq]
  rcases lexLt_trichotomy x y with h | h | h
  · exact Or.inl (Or.inl h)
  · exact Or.inl (Or.inr h)
  · exact Or.inr (Or.inl h)

theorem lexLe_trans {x y z : List Char} (hxy : lexLe x y = true)
    (hyz : lexLe y z = true) : lexLe x z = true := by
  simp only [lexLe, Bool.or_eq_true, beq_iff_eq] at hxy hyz ⊢
  rcases hxy with h1 | rfl
  · rcases hyz with h2 | rfl
    · exact Or.inl (lexLt_trans h1 h2)
    · exact Or.inl h1
  · exact hyz

theorem lexLe_antisymm {x y : List Char} (hxy : lexLe x y = true)
    (hyx : lexLe y x = true) : x = y := by
  simp only [lexLe, Bool.or_eq_true, beq_iff_eq] at hxy hyx
  rcases hxy with h1 | rfl
  · rcases hyx with h2 | rfl
    · exact absurd h2 (by rw [lexLt_asymm h1]; simp)
    · rfl
  · rfl

theorem string_eq_of_data_eq {s t : String} (h : s.data = t.data) : s = t := by
  cases s; cases t; exact congrArg String.mk h

instance : IsTotal (String × String) PairLEP where
  total p q := by
    simp only [PairLEP, pairLE, Bool.or_eq_true, Bool.and_eq_true, beq_iff_eq]
    rcases lexLt_trichotomy p.1.data q.1.data with h | h | h
    · exact Or.inl (Or.inl h)
    · rcases lexLe_total p.2.data q.2.data with h' | h'
      · exact Or.inl (Or.inr ⟨h, h'⟩)
      · exact Or.inr (Or.inr ⟨h.symm, h'⟩)
    · exact Or.inr (Or.inl h)

instance : IsTrans (String × String) PairLEP where
  trans p q r hpq hqr := by
    simp only [PairLEP, pairLE, Bool.or_eq_true, Bool.and_eq_true, beq_iff_eq] at hpq hqr ⊢
    rcases hpq with h1 | ⟨e1, h1⟩
    · rcases hqr with h2 | ⟨e2, h2⟩
      · exact Or.inl (lexLt_trans h1 h2)
      · exact Or.inl (e2 ▸ h1)
    · rcases hqr with h2 | ⟨e2, h2⟩
      · exact Or.inl (e1 ▸ h2)
      · exact Or.inr ⟨e1.trans e2, lexLe_trans h1 h2⟩

instance : IsAntisymm (String × String) PairLEP where
  antisymm p q hpq hqp := by
    simp only [PairLEP, pairLE, Bool.or_eq_true, Bool.and_eq_true, beq_iff_eq] at hpq hqp
    rcases hpq with h1 | ⟨e1, h1⟩
    · rcases hqp with h2 | ⟨e2, h2⟩
      · exact absurd h2 (by rw [lexLt_asymm h1]; simp)
      · exact absurd h1 (by rw [e2, lexLt_irrefl]; simp)
    · rcases hqp with h2 | ⟨e2, h2⟩
      · exact absurd h2 (by rw [e1, lexLt_irrefl]; simp)
      · refine Prod.ext (string_eq_of_data_eq e1) (string_eq_of_data_eq ?_)
        exact lexLe_antisymm h1 h2

instance : IsTotal (String × String) KeyLEP where
  total p q := lexLe_total p.1.data q.1.data

instance : IsTrans (String × String) KeyLEP where
  trans _ _ _ h1 h2 := lexLe_trans h1 h2

/-! ## PlaywrightWaitStrategy (src/web/wait.py)

Durations and instants are exact rationals (the Python floats are not
modelled bit-for-bit).  The virtual clock starts at `time.time() = 0`:
predicate calls are instantaneous and `time.sleep(w)` advances the
clock by exactly `w`.  The loop is indexed by fuel; `fuelExhausted`
only means the chosen fuel bound was reached, never a behaviour of the
code. -/

/-- Decimal digits of a natural number, most significant first; the
fuel argument (any bound ≥ the digit count) keeps recursion structural. -/
def natDigitsAux : ℕ → ℕ → List Char
  | 0, _ => []
  | fuel + 1, n => if n = 0 then [] else natDigitsAux fuel (n / 10) ++ [Char.ofNat (48 + n % 10)]

/-- Decimal rendering of a natural number. -/
def natToStr (n : ℕ) : String :=
  if n = 0 then "0" else String.mk (natDigitsAux (n + 1) n)

/-- Round a rational to the nearest integer, ties to even (the rounding
Python's `format` applies for `:.2f`). -/
def roundHalfEven (q : ℚ) : ℤ :=
  let f := ⌊q⌋
  let r := q - f
  if r < 1 / 2 then f
  else if 1 / 2 < r then f + 1
  else if f % 2 = 0 then f else f + 1

/-- Python `f"{q:.2f}"`: two-decimal fixed-point rendering. -/
def fmt2 (q : ℚ) : String :=
  let n := roundHalfEven (q * 100)
  let sgn := if n < 0 then "-" else ""
  let m := n.natAbs
  sgn ++ natToStr (m / 100) ++ "." ++ (if m % 100 < 10 then "0" else "") ++ natToStr (m % 100)

/-- The default timeout message of `_wait_with_backoff` (wait.py line
173): `f"等待超时，已等待{elapsed:.2f}秒"`. -/
def defaultTimeoutMsg (elapsed : ℚ) : String := "等待超时，已等待" ++ fmt2 elapsed ++ "秒"

/-- Outcome of one `_wait_with_backoff` run: the returned truthy value
or the raised `TimeoutError`, with the attempt count and the elapsed
time at that point. -/
inductive WaitResult (α : Type) where
  | success (value : α) (attempts : ℕ) (elapsed : ℚ)
  | timeoutErr (msg : String) (attempts : ℕ) (elapsed : ℚ)
  | fuelExhausted
  deriving Repr

/-- The `while True` loop of `_wait_with_backoff` (wait.py lines
159-196).  `pred k` is the result of the `k`-th call of `condition_fn`
(`none` = falsy).  `P`, `B`, `M` are the initial poll frequency, the
backoff factor and `self._max_poll_frequency`; `endT` is `end_time`.
The state is the completed attempt count and the clock; the returned
list is the trace of the `time.sleep` durations, in order. -/
def waitLoop (pred : ℕ → Option α) (P B M endT : ℚ) (msg : Option String) :
    ℕ → ℕ → ℚ → List ℚ × WaitResult α
  | 0, _, _ => ([], .fuelExhausted)
  | fuel + 1, attempts, t =>
    let k := attempts + 1
    match pred k with
    | some v => ([], .success v k t)
    | none =>
      if endT ≤ t then
        ([], .timeoutErr (msg.getD (defaultTimeoutMsg t)) k t)
      else
        let freq := min (P * B ^ k) M
        let w := min freq (endT - t)
        let r := waitLoop pred P B M endT msg fuel k (t + w)
        (w :: r.1, r.2)

/-- The strategy state set up by `PlaywrightWaitStrategy.__init__`. -/
structure PlaywrightWaitStrategy where
  default_timeout : ℚ
  default_poll_frequency : ℚ
  backoff_factor : ℚ
  max_poll_frequency : ℚ

/-- `__init__` (wait.py lines 52-81): stores the arguments, capping the
maximum poll frequency at `default_timeout / 2` (line 73). -/
def mkStrategy (default_timeout default_poll_frequency backoff_factor
    max_poll_frequency : ℚ) : PlaywrightWaitStrategy :=
  ⟨default_timeout, default_poll_frequency, backoff_factor,
    min max_poll_frequency (default_timeout / 2)⟩

/-- `_wait_with_backoff` (wait.py lines 126-196): resolve the `None`
defaults and run the loop from `attempt_count = 0` at time 0. -/
def wait_with_backoff (s : PlaywrightWaitStrategy) (pred : ℕ → Option α)
    (timeout poll_frequency : Option ℚ) (message : Option String) (fuel : ℕ) :
    List ℚ × WaitResult α :=
  let actual_timeout := timeout.getD s.default_timeout
  let actual_poll := poll_frequency.getD s.default_poll_frequency
  waitLoop pred actual_poll s.backoff_factor s.max_poll_frequency actual_timeout
    message fuel 0 0

/-- `wait_until` (wait.py lines 198-223): raise `RuntimeError` when no
page is set, otherwise delegate to `_wait_with_backoff` unchanged. -/
def wait_until (s : PlaywrightWaitStrategy) (pageSet : Bool) (pred : ℕ → Option α)
    (timeout poll_frequency : Option ℚ) (message : Option String) (fuel : ℕ) :
    Except String (List ℚ × WaitResult α) :=
  if pageSet then
    Except.ok (wait_with_backoff s pred timeout poll_frequency message fuel)
  else Except.error "Playwright Page对象未设置，无法执行等待操作。请确保WebDriver已初始化。"

/-- Result of one call of a single condition function inside
`wait_for_any`: a Playwright check can return a value, return a falsy
result, or raise (the `except` branch of wait.py lines 335-337). -/
inductive CheckOutcome (α : Type) where
  | ok (result : Option α)
  | exn
  deriving Repr

/-- `check_any_condition` (wait.py lines 327-338): try each condition
function in list order, return the first truthy result; a raising or
falsy check moves on to the next; `None` when no condition is met. -/
def check_any_condition : List (ℕ → CheckOutcome α) → ℕ → Option α
  | [], _ => none
  | fn :: rest, round =>
    match fn round with
    | .ok (some v) => some v
    | _ => check_any_condition rest round

/-- `wait_for_any` (wait.py lines 280-350): with a page set, poll
`check_any_condition` over the given condition functions with
`_wait_with_backoff`.  `defaultMsg` stands for the f-string default
message built from the Python reprs of the conditions (line 309), which
is outside the model. -/
def wait_for_any (s : PlaywrightWaitStrategy) (pageSet : Bool)
    (fns : List (ℕ → CheckOutcome α)) (timeout poll_frequency : Option ℚ)
    (message : Option String) (defaultMsg : String) (fuel : ℕ) :
    Except String (List ℚ × WaitResult α) :=
  if pageSet then
    Except.ok (wait_with_backoff s (check_any_condition fns) timeout poll_frequency
      (some (message.getD defaultMsg)) fuel)
  else Except.error "Playwright Page对象未设置，无法执行等待操作。请确保WebDriver已初始化。"

/-! ## Condition handler registry (src/core/base/conditions.py,
src/web/condition_handlers.py)

A handler's `matches` predicate is translated from each
`Playwright*Handler.matches`; its `check` method queries the live page
through Playwright, so it is abstracted as a round-indexed function
supplied to the registry constructor.  Arguments (`condition_args`) are
modelled as string-keyed, string-valued pairs. -/

/-- The `ElementCondition` enum (src/core/base/wait.py lines 17-36), in
definition order. -/
inductive ElementCondition where
  | PRESENT | VISIBLE | CLICKABLE | INVISIBLE | DISABLED | ENABLED | SELECTED
  | TEXT_CONTAINS | TEXT_EQUALS | VALUE_CONTAINS | VALUE_EQUALS
  | ATTRIBUTE_CONTAINS | ATTRIBUTE_EQUALS | STALENESS
  deriving DecidableEq, Repr

/-- Iteration order of `for condition in ElementConditionEnum`
(the enum's definition order). -/
def allConditions : List ElementCondition :=
  [.PRESENT, .VISIBLE, .CLICKABLE, .INVISIBLE, .DISABLED, .ENABLED, .SELECTED,
   .TEXT_CONTAINS, .TEXT_EQUALS, .VALUE_CONTAINS, .VALUE_EQUALS,
   .ATTRIBUTE_CONTAINS, .ATTRIBUTE_EQUALS, .STALENESS]

/-- Keyword arguments passed to a handler's `check`. -/
def CondArgs : Type := List (String × String)

/-- `'selector' in args`. -/
def hasSelector (args : CondArgs) : Bool := args.any fun kv => kv.1 == "selector"

/-- A `BaseConditionHandler`: the class's `matches` and its `check`
(round-indexed: round `k` is the `k`-th poll of the live page). -/
structure BaseConditionHandler (α : Type) where
  matchesCond : ElementCondition → Bool
  check : ℕ → CondArgs → Option α

/-- Python `dict` assignment `m[k] = v` on an association list: replace
in place when the key exists (keys are unique), else append. -/
def dictUpsert [DecidableEq κ] : List (κ × β) → κ → β → List (κ × β)
  | [], k, v => [(k, v)]
  | kv :: rest, k, v => if kv.1 = k then (k, v) :: rest else kv :: dictUpsert rest k v

/-- Association-list lookup with the dict's semantics (keys are unique). -/
def dictGet [DecidableEq κ] : List (κ × β) → κ → Option β
  | [], _ => none
  | kv :: rest, k => if kv.1 = k then some kv.2 else dictGet rest k

/-- `BaseConditionHandlerRegistry` state (conditions.py lines 130-139):
the handler list and the condition-to-handler map. -/
structure BaseConditionHandlerRegistry (α : Type) where
  handlers : List (BaseConditionHandler α)
  handler_map : List (ElementCondition × BaseConditionHandler α)

/-- `register_handler` (conditions.py lines 141-156): append the handler
and, for every enum condition it matches, make the map point to it
(overwriting any earlier handler for that condition). -/
def register_handler (reg : BaseConditionHandlerRegistry α)
    (handler : BaseConditionHandler α) : BaseConditionHandlerRegistry α :=
  { handlers := reg.handlers ++ [handler]
    handler_map := allConditions.foldl
      (fun m c => if handler.matchesCond c then dictUpsert m c handler else m)
      reg.handler_map }

/-- `get_handler` (conditions.py lines 158-168): map lookup. -/
def get_handler (reg : BaseConditionHandlerRegistry α) (condition : ElementCondition) :
    Option (BaseConditionHandler α) :=
  dictGet reg.handler_map condition

/-- The `matches` methods of the ten Playwright handlers
(condition_handlers.py), paired with their abstract `check` behaviours
in `_register_all` registration order. -/
def playwrightHandlers (checks : Fin 10 → ℕ → CondArgs → Option α) :
    List (BaseConditionHandler α) :=
  [⟨fun c => c == .PRESENT, checks 0⟩,
   ⟨fun c => c == .VISIBLE, checks 1⟩,
   ⟨fun c => c == .INVISIBLE, checks 2⟩,
   ⟨fun c => c == .CLICKABLE, checks 3⟩,
   ⟨fun c => c == .ENABLED, checks 4⟩,
   ⟨fun c => c == .DISABLED, checks 5⟩,
   ⟨fun c => c == .SELECTED, checks 6⟩,
   ⟨fun c => c == .STALENESS, checks 7⟩,
   ⟨fun c => c == .TEXT_CONTAINS || c == .TEXT_EQUALS, checks 8⟩,
   ⟨fun c => c == .ATTRIBUTE_CONTAINS || c == .ATTRIBUTE_EQUALS, checks 9⟩]

/-- `PlaywrightConditionHandlerRegistry.__init__` + `_register_all`
(condition_handlers.py lines 256-282): register the ten handlers in
order on an empty registry. -/
def mkPlaywrightRegistry (checks : Fin 10 → ℕ → CondArgs → Option α) :
    BaseConditionHandlerRegistry α :=
  (playwrightHandlers checks).foldl register_handler ⟨[], []⟩

/-- `_get_condition_function` (wait.py lines 97-124): `ValueError` when
the registry has no handler for the condition, `ValueError` when
`'selector'` is absent from the args (an `ElementCondition` is never
`Callable`), otherwise the closure polling `handler.check(**args)`. -/
def get_condition_function (reg : BaseConditionHandlerRegistry α)
    (condition : ElementCondition) (args : CondArgs) :
    Except String (ℕ → Option α) :=
  match get_handler reg condition with
  | none => Except.error "不支持的条件类型"
  | some handler =>
    if hasSelector args = false then Except.error "缺少必要的 selector 参数"
    else Except.ok fun k => handler.check k args

/-- `wait_for` (wait.py lines 225-278) for an `ElementCondition`
argument: page check, `'selector'` check (line 256), dispatch through
`_get_condition_function`, then `_wait_with_backoff` over the resulting
closure.  `defaultMsg` stands for the f-string default message of line
250, built from Python reprs outside the model. -/
def wait_for (s : PlaywrightWaitStrategy) (pageSet : Bool)
    (checks : Fin 10 → ℕ → CondArgs → Option α) (condition : ElementCondition)
    (args : CondArgs) (timeout poll_frequency : Option ℚ)
    (message : Option String) (defaultMsg : String) (fuel : ℕ) :
    Except String (List ℚ × WaitResult α) :=
  if pageSet = false then
    Except.error "Playwright Page对象未设置，无法执行等待操作。请确保WebDriver已初始化。"
  else if hasSelector args = false then
    Except.error "'selector' 必须在 condition_args 中提供"
  else
    match get_condition_function (mkPlaywrightRegistry checks) condition args with
    | Except.error e => Except.error e
    | Except.ok fn =>
      Except.ok (wait_with_backoff s fn timeout poll_frequency
        (some (message.getD defaultMsg)) fuel)

/-! ## EnvConfigLoader (src/utils/config/loaders.py)

The process environment is a list of `(name, value)` pairs with unique
names.  CPython's `int(...)`, `float(...)` and `json.loads(...)` are
abstracted: `intP` gives the parsed integer when `int(value)` succeeds,
`floatP`/`jsonP` tell whether `float(value)`/`json.loads(value)`
succeed (the float and JSON results themselves are kept as the raw
string, which is all the claims need). -/

/-- A value produced by `EnvConfigLoader._convert_value`. -/
inductive PyValue where
  | bool (b : Bool)
  | int (n : ℤ)
  | float (raw : String)
  | json (raw : String)
  | str (s : String)
  deriving DecidableEq, Repr

/-- ASCII lower-casing of a character (Python's `str.lower` restricted
to the ASCII names and values the loader deals with). -/
def charToLower (c : Char) : Char :=
  if 65 ≤ c.toNat ∧ c.toNat ≤ 90 then Char.ofNat (c.toNat + 32) else c

/-- `value.lower()`. -/
def pyLower (s : String) : String := String.mk (s.data.map charToLower)

/-- Whether the first list is a prefix of the second. -/
def isPre : List Char → List Char → Bool
  | [], _ => true
  | _ :: _, [] => false
  | a :: as, b :: bs => a == b && isPre as bs

/-- Python `value.startswith(pat)`. -/
def strStarts (pat s : String) : Bool := isPre pat.data s.data

/-- Python `value.endswith(pat)`. -/
def strEnds (pat s : String) : Bool := isPre pat.data.reverse s.data.reverse

/-- `config_key.replace("__", ".")`: replace each non-overlapping
`__`, scanning left to right. -/
def replaceDunder : List Char → List Char
  | '_' :: '_' :: rest => '.' :: replaceDunder rest
  | c :: rest => c :: replaceDunder rest
  | [] => []

/-- The key transform of `EnvConfigLoader.load` (loaders.py lines
184-185): strip the prefix, lower-case, replace `__` by `.`. -/
def transformKey (pfx key : String) : String :=
  String.mk (replaceDunder ((key.data.drop pfx.data.length).map charToLower))

/-- `EnvConfigLoader._convert_value` (loaders.py lines 206-240). -/
def convert_value (intP : String → Option ℤ) (floatP jsonP : String → Bool)
    (value : String) : PyValue :=
  if pyLower value ∈ ["true", "yes", "1", "on"] then .bool true
  else if pyLower value ∈ ["false", "no", "0", "off"] then .bool false
  else
    match intP value with
    | some n => .int n
    | none =>
      if floatP value then .float value
      else if ((strStarts "\x7b" value && strEnds "\x7d" value) ||
          (strStarts "[" value && strEnds "]" value)) && jsonP value then .json value
      else .str value

/-- `EnvConfigLoader.load` (loaders.py lines 162-190): fold over the
environment, keeping only names with the prefix, assigning the
transformed key to the converted value in the result dict. -/
def envLoad (pfx : String) (intP : String → Option ℤ) (floatP jsonP : String → Bool)
    (environ : List (String × String)) : List (String × PyValue) :=
  environ.foldl
    (fun config kv =>
      if strStarts pfx kv.1 then
        dictUpsert config (transformKey pfx kv.1) (convert_value intP floatP jsonP kv.2)
      else config)
    []

/-! ## Dict and registry lemmas -/

theorem dictGet_upsert_same [DecidableEq κ] (m : List (κ × β)) (k : κ) (v : β) :
    dictGet (dictUpsert m k v) k = some v := by
  induction m with
  | nil => simp [dictUpsert, dictGet]
  | cons kv rest ih =>
    by_cases hk : kv.1 = k
    · simp [dictUpsert, dictGet, hk]
    · simp [dictUpsert, dictGet, hk, ih]

theorem dictGet_upsert_other [DecidableEq κ] (m : List (κ × β)) (k k' : κ) (v : β)
    (hk : k' ≠ k) : dictGet (dictUpsert m k' v) k = dictGet m k := by
  induction m with
  | nil => simp [dictUpsert, dictGet, hk]
  | cons kv rest ih =>
    simp only [dictUpsert]
    by_cases h1 : kv.1 = k'
    · rw [if_pos h1]
      have h2 : kv.1 ≠ k := by rw [h1]; exact hk
      simp [dictGet, hk, h2]
    · rw [if_neg h1]
      simp only [dictGet]
      by_cases h2 : kv.1 = k
      · simp [h2]
      · simp [h2, ih]

/-- Effect of the inner loop of `register_handler` on the map: after
folding over a condition list, a condition the handler matches maps to
the handler, everything else is untouched. -/
theorem dictGet_register_fold (h : BaseConditionHandler α) (cs : List ElementCondition)
    (m0 : List (ElementCondition × BaseConditionHandler α)) (c : ElementCondition) :
    dictGet (cs.foldl (fun m c' => if h.matchesCond c' then dictUpsert m c' h else m) m0) c =
      if c ∈ cs ∧ h.matchesCond c = true then some h else dictGet m0 c := by
  induction cs generalizing m0 with
  | nil => simp
  | cons c' cs ih =>
    rw [List.foldl_cons, ih]
    by_cases hc : c ∈ cs ∧ h.matchesCond c = true
    · rw [if_pos hc, if_pos ⟨List.mem_cons_of_mem _ hc.1, hc.2⟩]
    · have hgoal : dictGet (if h.matchesCond c' = true then dictUpsert m0 c' h else m0) c =
          if c = c' ∧ h.matchesCond c = true then some h else dictGet m0 c := by
        by_cases he : c = c'
        · subst he
          by_cases hm : h.matchesCond c = true
          · simp [hm, dictGet_upsert_same]
          · simp [hm]
        · by_cases hm : h.matchesCond c' = true
          · rw [if_pos hm, dictGet_upsert_other _ _ _ _ (fun hh => he hh.symm)]
            simp [he]
          · rw [if_neg hm]
            simp [he]
      rw [if_neg hc, hgoal]
      by_cases he2 : c = c' ∧ h.matchesCond c = true
      · rw [if_pos he2, if_pos ⟨by simp [he2.1], he2.2⟩]
      · rw [if_neg he2, if_neg ?_]
        rintro ⟨hmem, hmm⟩
        rcases List.mem_cons.mp hmem with rfl | hmem2
        · exact he2 ⟨rfl, hmm⟩
        · exact hc ⟨hmem2, hmm⟩

/-- `register_handler` redirects exactly the conditions the new handler
matches to it, leaving the rest of the map as it was. -/
theorem get_handler_register (reg : BaseConditionHandlerRegistry α)
    (h : BaseConditionHandler α) (c : ElementCondition) :
    get_handler (register_handler reg h) c =
      if h.matchesCond c = true then some h else get_handler reg c := by
  have hc : c ∈ allConditions := by cases c <;> simp [allConditions]
  simp only [register_handler, get_handler]
  rw [dictGet_register_fold]
  by_cases hm : h.matchesCond c = true <;> simp [hm, hc]

theorem foldl_register_handlers (hs : List (BaseConditionHandler α))
    (reg : BaseConditionHandlerRegistry α) :
    (hs.foldl register_handler reg).handlers = reg.handlers ++ hs := by
  induction hs generalizing reg with
  | nil => simp
  | cons h hs ih => simp [ih, register_handler]

theorem get_handler_empty (c : ElementCondition) :
    get_handler (⟨[], []⟩ : BaseConditionHandlerRegistry α) c = none := rfl

/-- Registering a list of handlers in order makes each condition map to
the last handler in the list that matches it. -/
theorem get_handler_foldl (hs : List (BaseConditionHandler α))
    (reg : BaseConditionHandlerRegistry α) (c : ElementCondition) :
    get_handler (hs.foldl register_handler reg) c =
      hs.foldl (fun acc h => if h.matchesCond c then some h else acc) (get_handler reg c) := by
  induction hs generalizing reg with
  | nil => rfl
  | cons h hs ih => rw [List.foldl_cons, ih, get_handler_register, List.foldl_cons]

theorem get_condition_function_eq (reg : BaseConditionHandlerRegistry α)
    (c : ElementCondition) (args : CondArgs) :
    get_condition_function reg c args =
      match get_handler reg c with
      | none => Except.error "不支持的条件类型"
      | some handler =>
        if hasSelector args = false then Except.error "缺少必要的 selector 参数"
        else Except.ok fun k => handler.check k args := rfl

/-! ## Wait-loop lemmas -/

/-- Trace characterization: the `i`-th sleep (0-based) of a run started
with `attempts = k` lasts `min (P * B ^ (k+i+1)) M`, clamped to the time
remaining before the deadline when that sleep starts. -/
theorem waitLoop_sleep_getD (pred : ℕ → Option α) (P B M endT : ℚ) (msg : Option String) :
    ∀ (fuel k : ℕ) (t : ℚ) (i : ℕ),
      i < (waitLoop pred P B M endT msg fuel k t).1.length →
      (waitLoop pred P B M endT msg fuel k t).1.getD i 0 =
        min (min (P * B ^ (k + i + 1)) M)
          (endT - (t + ((waitLoop pred P B M endT msg fuel k t).1.take i).sum)) := by
  intro fuel
  induction fuel with
  | zero => intro k t i h; simp [waitLoop] at h
  | succ fuel ih =>
    intro k t i h
    rw [waitLoop] at h ⊢
    cases hp : pred (k + 1) with
    | some v => simp [hp] at h
    | none =>
      simp only [hp] at h ⊢
      by_cases hT : endT ≤ t
      · simp [if_pos hT] at h
      · simp only [if_neg hT] at h ⊢
        cases i with
        | zero =>
          simp only [List.getD_cons_zero, List.take_zero, List.sum_nil, add_zero]
        | succ i =>
          simp only [List.length_cons, Nat.succ_lt_succ_iff] at h
          simp only [List.getD_cons_succ, List.take_succ_cons, List.sum_cons]
          rw [ih (k + 1) _ i h]
          have hk : k + 1 + i + 1 = k + (i + 1) + 1 := by omega
          rw [hk]
          ring_nf

/-- Success characterization: a run from state `(k, t)` that ends in
`success v n e` got `none` from every predicate call after `k` and
before `n`, got `v` from call `n`, slept once per failed call
(`n - 1 - k` sleeps, none after the successful call), and made `n`
calls in total. -/
theorem waitLoop_success (pred : ℕ → Option α) (P B M endT : ℚ) (msg : Option String) :
    ∀ (fuel k : ℕ) (t : ℚ) (v : α) (n : ℕ) (e : ℚ),
      (waitLoop pred P B M endT msg fuel k t).2 = .success v n e →
      pred n = some v ∧ (∀ j, k < j → j < n → pred j = none) ∧
        (waitLoop pred P B M endT msg fuel k t).1.length = n - 1 - k ∧ k < n := by
  intro fuel
  induction fuel with
  | zero => intro k t v n e h; simp [waitLoop] at h
  | succ fuel ih =>
    intro k t v n e h
    rw [waitLoop] at h ⊢
    cases hp : pred (k + 1) with
    | some v' =>
      simp only [hp, WaitResult.success.injEq] at h
      obtain ⟨rfl, rfl, rfl⟩ := h
      refine ⟨hp, fun j hj1 hj2 => absurd (Nat.lt_of_lt_of_le hj2 hj1) (by omega), ?_, by omega⟩
      simp [hp, waitLoop]
    | none =>
      simp only [hp] at h ⊢
      by_cases hT : endT ≤ t
      · simp [if_pos hT] at h
      · simp only [if_neg hT] at h ⊢
        obtain ⟨h1, h2, h3, h4⟩ := ih (k + 1) _ v n e h
        refine ⟨h1, ?_, ?_, by omega⟩
        · intro j hj1 hj2
          rcases Nat.lt_or_ge k.succ j with hj | hj
          · exact h2 j hj hj2
          · have : j = k + 1 := by omega
            subst this; exact hp
        · simpa [h3] using by omega

/-- Timeout characterization: a run from state `(k, t)` that ends in
`timeoutErr m n e` raised at a clock value `e` that is at or past the
deadline, with `m` the supplied message or the default message built
from the elapsed time, after getting `none` from every call after `k`
and up to `n`, with `n > k` calls in total. -/
theorem waitLoop_timeout (pred : ℕ → Option α) (P B M endT : ℚ) (msg : Option String) :
    ∀ (fuel k : ℕ) (t : ℚ) (m : String) (n : ℕ) (e : ℚ),
      (waitLoop pred P B M endT msg fuel k t).2 = .timeoutErr m n e →
      endT ≤ e ∧ m = msg.getD (defaultTimeoutMsg e) ∧
        (∀ j, k < j → j ≤ n → pred j = none) ∧ k < n := by
  intro fuel
  induction fuel with
  | zero => intro k t m n e h; simp [waitLoop] at h
  | succ fuel ih =>
    intro k t m n e h
    rw [waitLoop] at h
    cases hp : pred (k + 1) with
    | some v' => simp [hp] at h
    | none =>
      simp only [hp] at h
      by_cases hT : endT ≤ t
      · simp only [if_pos hT, WaitResult.timeoutErr.injEq] at h
        obtain ⟨rfl, rfl, rfl⟩ := h
        refine ⟨hT, rfl, fun j hj1 hj2 => ?_, by omega⟩
        have : j = k + 1 := by omega
        subst this; exact hp
      · simp only [if_neg hT] at h
        obtain ⟨h1, h2, h3, h4⟩ := ih (k + 1) _ m n e h
        refine ⟨h1, h2, ?_, by omega⟩
        intro j hj1 hj2
        rcases Nat.lt_or_ge k.succ j with hj | hj
        · exact h3 j hj hj2
        · have : j = k + 1 := by omega
          subst this; exact hp

/-! ## Claim theorems: the wait engine -/

/-- C1, counterexample: with `P = 1`, `B = 2`, `M = 4`, `T = 10` and an
always-falsy predicate, the first sleep of `_wait_with_backoff` lasts 2
seconds, not the `min(P * B^0, M) = 1` second (clamped to the remaining
`10` seconds) that the claim predicts for `k = 1`: the code computes
`P * B ** attempt_count` after `attempt_count` was already incremented. -/
theorem C1_counterexample :
    (waitLoop (fun _ => (none : Option Unit)) 1 2 4 10 none 3 0 0).1.getD 0 0 = 2 ∧
      ¬((2 : ℚ) = min (min ((1 : ℚ) * 2 ^ (1 - 1)) 4) (10 - 0)) := by
  constructor
  · norm_num [waitLoop, min_def]
  · norm_num [min_def]

/-- C1, amended: the `k`-th sleep (1-based; 0-based index `i = k - 1`)
of a `_wait_with_backoff` run lasts `min(P * B^k, M)` seconds — the
exponent is `k`, not `k - 1`, so the first sleep lasts `min(P * B, M)` —
clamped to the time remaining before the deadline, where `M` is the
strategy's `_max_poll_frequency`. -/
theorem C1_amended_sleeps (s : PlaywrightWaitStrategy) (pred : ℕ → Option α)
    (timeout poll_frequency : Option ℚ) (message : Option String) (fuel i : ℕ)
    (h : i < (wait_with_backoff s pred timeout poll_frequency message fuel).1.length) :
    (wait_with_backoff s pred timeout poll_frequency message fuel).1.getD i 0 =
      min (min ((poll_frequency.getD s.default_poll_frequency) * s.backoff_factor ^ (i + 1))
          s.max_poll_frequency)
        ((timeout.getD s.default_timeout) -
          ((wait_with_backoff s pred timeout poll_frequency message fuel).1.take i).sum) := by
  have := waitLoop_sleep_getD pred (poll_frequency.getD s.default_poll_frequency)
    s.backoff_factor s.max_poll_frequency (timeout.getD s.default_timeout) message fuel 0 0 i
    (by simpa [wait_with_backoff] using h)
  simpa [wait_with_backoff] using this

/-- C1, witness: in the run with `P = 1`, `B = 2`, `M = 4`, `T = 10`
(trace `[2, 4, 4]`), the second sleep lasts
`min(min(1 * 2^2, 4), 10 - 2) = 4` seconds. -/
theorem C1_amended_witness :
    1 < (wait_with_backoff (mkStrategy 10 1 2 4) (fun _ => (none : Option Unit))
        none none none 3).1.length ∧
    (wait_with_backoff (mkStrategy 10 1 2 4) (fun _ => (none : Option Unit))
        none none none 3).1.getD 1 0 =
      min (min (((none : Option ℚ).getD (mkStrategy 10 1 2 4).default_poll_frequency) *
          (mkStrategy 10 1 2 4).backoff_factor ^ (1 + 1)) (mkStrategy 10 1 2 4).max_poll_frequency)
        (((none : Option ℚ).getD (mkStrategy 10 1 2 4).default_timeout) -
          ((wait_with_backoff (mkStrategy 10 1 2 4) (fun _ => (none : Option Unit))
            none none none 3).1.take 1).sum) :=
  ⟨by norm_num [wait_with_backoff, waitLoop, mkStrategy, min_def],
   C1_amended_sleeps (mkStrategy 10 1 2 4) (fun _ => (none : Option Unit)) none none none 3 1
     (by norm_num [wait_with_backoff, waitLoop, mkStrategy, min_def])⟩

/-- C2: whenever a predicate call returns a truthy value, the run
returns exactly that value immediately — a run that returns got the
value of its first truthy call, with every earlier call falsy, the
attempt count of that call and one sleep per failed call (`n - 1`
sleeps, none after the successful call); and a run that raised
`TimeoutError` never saw a truthy call at all, so a truthy call before
the deadline always produces the immediate return.  `wait_until` (with
a page set) forwards the result unchanged. -/
theorem C2_first_truthy (s : PlaywrightWaitStrategy) (pred : ℕ → Option α)
    (timeout poll_frequency : Option ℚ) (message : Option String) (fuel : ℕ) :
    (∀ v n e, (wait_with_backoff s pred timeout poll_frequency message fuel).2 =
        .success v n e →
      pred n = some v ∧ (∀ j, 1 ≤ j → j < n → pred j = none) ∧
        (wait_with_backoff s pred timeout poll_frequency message fuel).1.length = n - 1) ∧
    (∀ m n e, (wait_with_backoff s pred timeout poll_frequency message fuel).2 =
        .timeoutErr m n e →
      ∀ j, 1 ≤ j → j ≤ n → pred j = none) ∧
    wait_until s true pred timeout poll_frequency message fuel =
      Except.ok (wait_with_backoff s pred timeout poll_frequency message fuel) := by
  refine ⟨fun v n e h => ?_, fun m n e h => ?_, by simp [wait_until]⟩
  · obtain ⟨h1, h2, h3, -⟩ := waitLoop_success pred
      (poll_frequency.getD s.default_poll_frequency) s.backoff_factor s.max_poll_frequency
      (timeout.getD s.default_timeout) message fuel 0 0 v n e
      (by simpa [wait_with_backoff] using h)
    refine ⟨h1, fun j hj1 hj2 => h2 j (by omega) hj2, ?_⟩
    simpa [wait_with_backoff] using h3
  · obtain ⟨-, -, h3, -⟩ := waitLoop_timeout pred
      (poll_frequency.getD s.default_poll_frequency) s.backoff_factor s.max_poll_frequency
      (timeout.getD s.default_timeout) message fuel 0 0 m n e
      (by simpa [wait_with_backoff] using h)
    exact fun j hj1 hj2 => h3 j (by omega) hj2

/-- C2, witness: a predicate truthy on its second call makes the run
return its value after exactly two calls and one sleep. -/
theorem C2_witness :
    ((wait_with_backoff (mkStrategy 10 1 2 4)
        (fun k => if k = 2 then some 7 else (none : Option ℕ)) none none none 5).2 =
      .success 7 2 2) ∧
    ((fun k => if k = 2 then some 7 else (none : Option ℕ)) 2 = some 7 ∧
      (∀ j, 1 ≤ j → j < 2 →
        (fun k => if k = 2 then some 7 else (none : Option ℕ)) j = none) ∧
      (wait_with_backoff (mkStrategy 10 1 2 4)
          (fun k => if k = 2 then some 7 else (none : Option ℕ)) none none none 5).1.length =
        2 - 1) :=
  ⟨by norm_num [wait_with_backoff, waitLoop, mkStrategy, min_def],
   (C2_first_truthy (mkStrategy 10 1 2 4)
       (fun k => if k = 2 then some 7 else (none : Option ℕ)) none none none 5).1 7 2 2
     (by norm_num [wait_with_backoff, waitLoop, mkStrategy, min_def])⟩

/-- C3: a `_wait_with_backoff` run that raises `TimeoutError` does so
only at a clock value at or past the deadline (never before), after
every one of its predicate calls returned falsy; and when no custom
message was supplied the error message is the default message embedding
the elapsed waiting time formatted to two decimals. -/
theorem C3_timeout_after_deadline (s : PlaywrightWaitStrategy) (pred : ℕ → Option α)
    (timeout poll_frequency : Option ℚ) (message : Option String) (fuel : ℕ)
    (m : String) (n : ℕ) (e : ℚ)
    (h : (wait_with_backoff s pred timeout poll_frequency message fuel).2 = .timeoutErr m n e) :
    (timeout.getD s.default_timeout) ≤ e ∧
      (message = none → m = "等待超时，已等待" ++ fmt2 e ++ "秒") ∧
      (∀ j, 1 ≤ j → j ≤ n → pred j = none) := by
  obtain ⟨h1, h2, h3, h4⟩ := waitLoop_timeout pred (poll_frequency.getD s.default_poll_frequency)
    s.backoff_factor s.max_poll_frequency (timeout.getD s.default_timeout) message fuel 0 0 m n e
    (by simpa [wait_with_backoff] using h)
  refine ⟨h1, fun hm => ?_, fun j hj1 hj2 => h3 j (by omega) hj2⟩
  subst hm
  simpa [defaultTimeoutMsg] using h2

/-- C3, witness: the run with `T = 10` and an always-falsy predicate
raises at the clock value 10 with the default message for 10 elapsed
seconds. -/
theorem C3_witness :
    ((wait_with_backoff (mkStrategy 10 1 2 4) (fun _ => (none : Option Unit))
        none none none 5).2 = .timeoutErr (defaultTimeoutMsg 10) 4 10) ∧
    (((none : Option ℚ).getD (mkStrategy 10 1 2 4).default_timeout) ≤ 10 ∧
      ((none : Option String) = none →
        defaultTimeoutMsg 10 = "等待超时，已等待" ++ fmt2 10 ++ "秒") ∧
      (∀ j, 1 ≤ j → j ≤ 4 → (fun _ => (none : Option Unit)) j = none)) :=
  ⟨by norm_num [wait_with_backoff, waitLoop, mkStrategy, min_def],
   C3_timeout_after_deadline (mkStrategy 10 1 2 4) (fun _ => (none : Option Unit))
     none none none 5 (defaultTimeoutMsg 10) 4 10
     (by norm_num [wait_with_backoff, waitLoop, mkStrategy, min_def])⟩

/-- C8: whatever the timeout (zero and negative included), a
`TimeoutError` is only ever raised after at least one predicate call,
because each loop iteration calls the predicate before testing the
deadline; and a predicate truthy on its first call yields its value
(with attempt count 1, at clock 0, with no sleeps) even when the
deadline has already passed. -/
theorem C8_predicate_before_deadline (s : PlaywrightWaitStrategy) (pred : ℕ → Option α)
    (timeout poll_frequency : Option ℚ) (message : Option String) (fuel : ℕ) :
    (∀ m n e, (wait_with_backoff s pred timeout poll_frequency message fuel).2 =
        .timeoutErr m n e → 1 ≤ n) ∧
    (∀ v, pred 1 = some v → 1 ≤ fuel →
      wait_with_backoff s pred timeout poll_frequency message fuel = ([], .success v 1 0)) := by
  constructor
  · intro m n e h
    obtain ⟨-, -, -, h4⟩ := waitLoop_timeout pred (poll_frequency.getD s.default_poll_frequency)
      s.backoff_factor s.max_poll_frequency (timeout.getD s.default_timeout) message fuel 0 0 m n e
      (by simpa [wait_with_backoff] using h)
    omega
  · intro v hp hf
    obtain ⟨fuel, rfl⟩ : ∃ f, fuel = f + 1 := ⟨fuel - 1, by omega⟩
    simp [wait_with_backoff, waitLoop, hp]

/-- C8, witness: with timeout `-1` (already elapsed at the start), a
predicate truthy on its first call still yields its value; an
always-falsy predicate still gets one call before the raise. -/
theorem C8_witness :
    ((wait_with_backoff (mkStrategy 10 1 2 4) (fun _ => (none : Option Unit))
        (some (-1)) none none 1).2 = .timeoutErr (defaultTimeoutMsg 0) 1 0) ∧
    (1 : ℕ) ≤ 1 ∧
    ((fun _ => (some 42 : Option ℕ)) 1 = some 42 ∧
      wait_with_backoff (mkStrategy 10 1 2 4) (fun _ => (some 42 : Option ℕ))
        (some (-1)) none none 1 = ([], .success 42 1 0)) :=
  ⟨by norm_num [wait_with_backoff, waitLoop, mkStrategy, min_def],
   (C8_predicate_before_deadline (mkStrategy 10 1 2 4) (fun _ => (none : Option Unit))
     (some (-1)) none none 1).1 (defaultTimeoutMsg 0) 1 0
     (by norm_num [wait_with_backoff, waitLoop, mkStrategy, min_def]),
   rfl,
   (C8_predicate_before_deadline (mkStrategy 10 1 2 4) (fun _ => (some 42 : Option ℕ))
     (some (-1)) none none 1).2 42 rfl (le_refl 1)⟩

/-- `check_any_condition` returns the result of the first condition in
list order whose check is truthy in this round: every earlier condition
either raised or returned falsy. -/
theorem check_any_first (fns : List (ℕ → CheckOutcome α)) (round : ℕ) (v : α)
    (h : check_any_condition fns round = some v) :
    ∃ i, i < fns.length ∧ (fns.getD i fun _ => .exn) round = .ok (some v) ∧
      ∀ j, j < i → ∀ u, (fns.getD j fun _ => .exn) round ≠ .ok (some u) := by
  induction fns with
  | nil => simp [check_any_condition] at h
  | cons fn rest ih =>
    rw [check_any_condition] at h
    cases hf : fn round with
    | ok r =>
      cases r with
      | some u =>
        simp only [hf] at h
        refine ⟨0, by simp, ?_, by simp⟩
        simpa [hf] using h
      | none =>
        simp only [hf] at h
        obtain ⟨i, hi, h1, h2⟩ := ih h
        refine ⟨i + 1, by simpa using hi, by simpa using h1, fun j hj u => ?_⟩
        cases j with
        | zero => simp [hf]
        | succ j => simpa using h2 j (by omega) u
    | exn =>
      simp only [hf] at h
      obtain ⟨i, hi, h1, h2⟩ := ih h
      refine ⟨i + 1, by simpa using hi, by simpa using h1, fun j hj u => ?_⟩
      cases j with
      | zero => simp [hf]
      | succ j => simpa using h2 j (by omega) u

/-- C4: a `wait_for_any` run (with a page set) that returns a value got
it from the first condition in list order whose check was truthy in the
round that succeeded, every earlier polling round having found no
truthy condition; and it raises `TimeoutError` exactly when every
condition's check was falsy (or raised) in every polling round. -/
theorem C4_first_of_any (s : PlaywrightWaitStrategy) (fns : List (ℕ → CheckOutcome α))
    (timeout poll_frequency : Option ℚ) (message : Option String) (defaultMsg : String)
    (fuel : ℕ) (r : List ℚ × WaitResult α)
    (h : wait_for_any s true fns timeout poll_frequency message defaultMsg fuel = Except.ok r) :
    (∀ v n e, r.2 = .success v n e →
      check_any_condition fns n = some v ∧
      (∀ j, 1 ≤ j → j < n → check_any_condition fns j = none) ∧
      ∃ i, i < fns.length ∧ (fns.getD i fun _ => .exn) n = .ok (some v) ∧
        ∀ j, j < i → ∀ u, (fns.getD j fun _ => .exn) n ≠ .ok (some u)) ∧
    (∀ m n e, r.2 = .timeoutErr m n e →
      ∀ j, 1 ≤ j → j ≤ n → check_any_condition fns j = none) := by
  have hr : r = wait_with_backoff s (check_any_condition fns) timeout poll_frequency
      (some (message.getD defaultMsg)) fuel := by
    simpa [wait_for_any] using h.symm
  subst hr
  constructor
  · intro v n e hs
    obtain ⟨h1, h2, -, -⟩ := waitLoop_success (check_any_condition fns)
      (poll_frequency.getD s.default_poll_frequency) s.backoff_factor s.max_poll_frequency
      (timeout.getD s.default_timeout) (some (message.getD defaultMsg)) fuel 0 0 v n e
      (by simpa [wait_with_backoff] using hs)
    exact ⟨h1, fun j hj1 hj2 => h2 j (by omega) hj2, check_any_first fns n v h1⟩
  · intro m n e ht
    obtain ⟨-, -, h3, -⟩ := waitLoop_timeout (check_any_condition fns)
      (poll_frequency.getD s.default_poll_frequency) s.backoff_factor s.max_poll_frequency
      (timeout.getD s.default_timeout) (some (message.getD defaultMsg)) fuel 0 0 m n e
      (by simpa [wait_with_backoff] using ht)
    exact fun j hj1 hj2 => h3 j (by omega) hj2

/-- C4, witness: three conditions — one always raising, one always
falsy, one truthy from round 2 — make `wait_for_any` return the third
condition's value in round 2 after one sleep. -/
theorem C4_witness :
    (wait_for_any (mkStrategy 10 1 2 4) true
        [fun _ => (.exn : CheckOutcome ℕ), fun _ => .ok none,
          fun k => .ok (if k = 2 then some 9 else none)]
        none none none "any" 5 = Except.ok ([2], .success 9 2 2)) ∧
    (([2], (.success 9 2 2 : WaitResult ℕ)).2 = .success 9 2 2 →
      check_any_condition
        [fun _ => (.exn : CheckOutcome ℕ), fun _ => .ok none,
          fun k => .ok (if k = 2 then some 9 else none)] 2 = some 9) :=
  ⟨by norm_num [wait_for_any, wait_with_backoff, waitLoop, check_any_condition,
      mkStrategy, min_def],
   fun hs => ((C4_first_of_any (mkStrategy 10 1 2 4)
     [fun _ => (.exn : CheckOutcome ℕ), fun _ => .ok none,
       fun k => .ok (if k = 2 then some 9 else none)]
     none none none "any" 5 ([2], .success 9 2 2)
     (by norm_num [wait_for_any, wait_with_backoff, waitLoop, check_any_condition,
        mkStrategy, min_def])).1 9 2 2 hs).1⟩

/-- C5: `_get_condition_function` dispatches through the registry's
condition-to-handler map: any handler the map returns is a registered
handler whose `matches` accepts the condition, and (given the
`'selector'` argument) the function polled is exactly that handler's
`check` over the supplied args; when no registered handler matches the
condition (`VALUE_CONTAINS`, `VALUE_EQUALS`), the map has no entry and
`_get_condition_function` raises `ValueError` instead. -/
theorem C5_dispatch (checks : Fin 10 → ℕ → CondArgs → Option α)
    (condition : ElementCondition) (args : CondArgs) :
    (∀ h, get_handler (mkPlaywrightRegistry checks) condition = some h →
      h.matchesCond condition = true ∧ h ∈ (mkPlaywrightRegistry checks).handlers ∧
      (hasSelector args = true →
        get_condition_function (mkPlaywrightRegistry checks) condition args =
          Except.ok fun k => h.check k args)) ∧
    (get_handler (mkPlaywrightRegistry checks) condition = none →
      (∀ h ∈ (mkPlaywrightRegistry checks).handlers, h.matchesCond condition = false) ∧
      get_condition_function (mkPlaywrightRegistry checks) condition args =
        Except.error "不支持的条件类型") := by
  have hhandlers : (mkPlaywrightRegistry checks).handlers = playwrightHandlers checks := by
    rw [mkPlaywrightRegistry, foldl_register_handlers]; rfl
  have hget : ∀ c, get_handler (mkPlaywrightRegistry checks) c =
      (playwrightHandlers checks).foldl
        (fun acc h => if h.matchesCond c then some h else acc) none := by
    intro c
    rw [mkPlaywrightRegistry, get_handler_foldl, get_handler_empty]
  simp only [get_condition_function_eq, hget, hhandlers]
  cases condition <;> simp only [playwrightHandlers, List.foldl_cons, List.foldl_nil] <;>
    constructor
  all_goals
    first
    | (intro h hh
       simp at hh
       all_goals subst hh
       all_goals exact ⟨rfl, by simp, fun hsel => by simp [hsel]⟩)
    | (intro hn
       try simp at hn
       all_goals refine ⟨?_, by simp⟩
       all_goals
         (intro h hmem
          simp at hmem
          rcases hmem with rfl | rfl | rfl | rfl | rfl | rfl | rfl | rfl | rfl | rfl <;> rfl))

/-- C5, witness: with concrete (always-`None`) check behaviours, the
`VISIBLE` condition dispatches to the visible handler, which is
registered, matches `VISIBLE`, and whose `check` is the polled
function. -/
theorem C5_witness :
    (get_handler (mkPlaywrightRegistry fun _ _ _ => (none : Option Unit))
        ElementCondition.VISIBLE = some ⟨fun c => c == .VISIBLE, fun _ _ => none⟩) ∧
    ((⟨fun c => c == .VISIBLE, fun _ _ => none⟩ :
        BaseConditionHandler Unit).matchesCond .VISIBLE = true ∧
      (⟨fun c => c == .VISIBLE, fun _ _ => none⟩ : BaseConditionHandler Unit) ∈
        (mkPlaywrightRegistry fun _ _ _ => (none : Option Unit)).handlers ∧
      (hasSelector [("selector", "x")] = true →
        get_condition_function (mkPlaywrightRegistry fun _ _ _ => (none : Option Unit))
            .VISIBLE [("selector", "x")] =
          Except.ok fun k =>
            (⟨fun c => c == .VISIBLE, fun _ _ => none⟩ :
              BaseConditionHandler Unit).check k [("selector", "x")])) := by
  have hget : get_handler (mkPlaywrightRegistry fun _ _ _ => (none : Option Unit))
      ElementCondition.VISIBLE = some ⟨fun c => c == .VISIBLE, fun _ _ => none⟩ := by
    rw [mkPlaywrightRegistry, get_handler_foldl, get_handler_empty]
    simp [playwrightHandlers]
  exact ⟨hget, (C5_dispatch _ _ _).1 _ hget⟩

/-! ## Claim theorems: the MD5 signature -/

/-- Sorting by Python tuple comparison is determined by the multiset of
items: permuted inputs sort to the same list. -/
theorem insertionSort_pairLE_perm {l1 l2 : List (String × String)} (h : l1.Perm l2) :
    l1.insertionSort PairLEP = l2.insertionSort PairLEP :=
  List.eq_of_perm_of_sorted
    ((List.perm_insertionSort _ _).trans (h.trans (List.perm_insertionSort _ _).symm))
    (List.sorted_insertionSort _ _) (List.sorted_insertionSort _ _)

/-- With pairwise-distinct keys, sorting by Python tuple comparison and
sorting by key alone coincide (the value tie-break is never consulted). -/
theorem insertionSort_key_eq_pair (l : List (String × String))
    (h : (l.map Prod.fst).Nodup) :
    l.insertionSort PairLEP = l.insertionSort KeyLEP := by
  have hperm : (l.insertionSort PairLEP).Perm (l.insertionSort KeyLEP) :=
    (List.perm_insertionSort _ _).trans (List.perm_insertionSort _ _).symm
  have hkeys : ((l.insertionSort KeyLEP).map Prod.fst).Nodup := by
    have := (List.perm_insertionSort KeyLEP l).map Prod.fst
    exact this.nodup_iff.mpr h
  have hne : (l.insertionSort KeyLEP).Pairwise fun p q => p.1 ≠ q.1 :=
    List.pairwise_map.mp hkeys
  have hsorted2 : List.Sorted PairLEP (l.insertionSort KeyLEP) := by
    have hk : List.Sorted KeyLEP (l.insertionSort KeyLEP) := List.sorted_insertionSort _ _
    refine (hk.and hne).imp ?_
    intro a b hab
    obtain ⟨hle, hnee⟩ := hab
    have h1 : lexLt a.1.data b.1.data = true ∨ (a.1.data == b.1.data) = true := by
      simpa [KeyLEP, lexLe, Bool.or_eq_true] using hle
    rcases h1 with h1 | h1
    · simp [PairLEP, pairLE, h1]
    · exact absurd (string_eq_of_data_eq (by simpa using h1)) hnee
  exact List.eq_of_perm_of_sorted hperm (List.sorted_insertionSort _ _) hsorted2

/-- The code's filter (drop `None`/empty values and the keys `sign`,
`key`, `appKey`) written with a guard list equals the same filter
written as nested disjunctions. -/
theorem sigFilter_eq_amendedKept (params : List (String × Option String)) :
    (params.filterMap fun kv =>
      kv.2.bind fun v =>
        if v = "" ∨ kv.1 = "sign" ∨ kv.1 = "key" ∨ kv.1 = "appKey" then none
        else some (kv.1, v)) = sigFilter params := by
  unfold sigFilter
  apply List.filterMap_congr
  intro kv _
  obtain ⟨k, v⟩ := kv
  cases v with
  | none => rfl
  | some v =>
    simp only [Option.some_bind]
    by_cases h : v = "" ∨ k = "sign" ∨ k = "key" ∨ k = "appKey"
    · have h2 : ¬(v ≠ "" ∧ k ∉ ["sign", "key", "appKey"]) := by
        simp only [List.mem_cons, List.not_mem_nil, or_false, not_and_or, not_not, ne_eq]
        tauto
      rw [if_pos h, if_neg h2]
    · have h2 : v ≠ "" ∧ k ∉ ["sign", "key", "appKey"] := by
        simp only [List.mem_cons, List.not_mem_nil, or_false, ne_eq]
        push_neg at h ⊢
        tauto
      rw [if_neg h, if_pos h2]

/-- The filtered items' keys are a sublist of the parameter keys, so
distinct parameter keys stay distinct after filtering. -/
theorem sigFilter_cons_none (k : String) (ps : List (String × Option String)) :
    sigFilter ((k, none) :: ps) = sigFilter ps := rfl

theorem sigFilter_cons_pos {k v : String} (ps : List (String × Option String))
    (h : v ≠ "" ∧ k ∉ ["sign", "key", "appKey"]) :
    sigFilter ((k, some v) :: ps) = (k, v) :: sigFilter ps := by
  rw [sigFilter, List.filterMap_cons]
  simp only [if_pos h]
  rfl

theorem sigFilter_cons_neg {k v : String} (ps : List (String × Option String))
    (h : ¬(v ≠ "" ∧ k ∉ ["sign", "key", "appKey"])) :
    sigFilter ((k, some v) :: ps) = sigFilter ps := by
  rw [sigFilter, List.filterMap_cons]
  simp only [if_neg h]
  rfl

theorem sigFilter_keys_sublist (params : List (String × Option String)) :
    ((sigFilter params).map Prod.fst).Sublist (params.map Prod.fst) := by
  induction params with
  | nil => simp [sigFilter]
  | cons kv ps ih =>
    obtain ⟨k, v⟩ := kv
    cases v with
    | none =>
      rw [sigFilter_cons_none, List.map_cons]
      exact ih.trans (List.sublist_cons_self _ _)
    | some v =>
      by_cases h : v ≠ "" ∧ k ∉ ["sign", "key", "appKey"]
      · rw [sigFilter_cons_pos ps h, List.map_cons, List.map_cons]
        exact ih.cons₂ k
      · rw [sigFilter_cons_neg ps h, List.map_cons]
        exact ih.trans (List.sublist_cons_self _ _)

set_option maxRecDepth 100000 in
/-- C6, counterexample: on `{"appKey": "x", "a": "1"}` with secret `S`,
`calculate_md5_sign` drops the `appKey` entry (the code filters the
keys `sign`, `key` and `appKey`), so it does not return the digest of
the string the claim describes, which keeps `appKey` and removes only
`sign`. -/
theorem C6_counterexample :
    calculate_md5_sign [("appKey", some "x"), ("a", some "1")] "S" ≠
      Except.ok (claimC6Sign [("appKey", some "x"), ("a", some "1")] "S") := by
  have h1 : calculate_md5_sign [("appKey", some "x"), ("a", some "1")] "S" =
      Except.ok "45772C80A98C79C2DCCE971F57B09D4E" := rfl
  have h2 : claimC6Sign [("appKey", some "x"), ("a", some "1")] "S" =
      "D1FF80B922714043C68D6EEAEABACDF8" := rfl
  rw [h1, h2]
  intro h
  injection h with h3
  exact absurd h3 (by decide)

/-- C6, amended: for parameter dicts (distinct keys) and a non-empty
secret, `calculate_md5_sign` returns the uppercase MD5 hex digest of
the string built by removing entries whose value is `None` or empty
and the entries keyed `sign`, `key` and `appKey`, sorting the rest by
key in ascending code-point order, joining `k=v` pairs with `&`, and
appending `&key=` and the secret. -/
theorem C6_amended_sign (params : List (String × Option String)) (secret_key : String)
    (hs : secret_key ≠ "") (hnd : (params.map Prod.fst).Nodup) :
    calculate_md5_sign params secret_key = Except.ok (amendedC6Sign params secret_key) := by
  have hkeys : ((sigFilter params).map Prod.fst).Nodup :=
    hnd.sublist (sigFilter_keys_sublist params)
  rw [calculate_md5_sign, if_neg hs, amendedC6Sign, sigFilter_eq_amendedKept,
    ← insertionSort_key_eq_pair _ hkeys]
  rfl

/-- C6, witness: the amended description reproduces the code's
signature on `{"appKey": "x", "a": "1"}` with secret `S`. -/
theorem C6_witness :
    ("S" ≠ "" ∧ (([("appKey", some "x"), ("a", some "1")] :
        List (String × Option String)).map Prod.fst).Nodup) ∧
    calculate_md5_sign [("appKey", some "x"), ("a", some "1")] "S" =
      Except.ok (amendedC6Sign [("appKey", some "x"), ("a", some "1")] "S") :=
  ⟨⟨by decide, by decide⟩,
   C6_amended_sign [("appKey", some "x"), ("a", some "1")] "S" (by decide) (by decide)⟩

/-- C9: the signature depends only on the multiset of entries that
survive the filter — it is invariant under the dict's insertion order
and under adding or removing entries whose value is `None` or the empty
string or whose key is `sign`, `key` or `appKey`: two parameter lists
whose filtered items are permutations of each other sign identically
under any secret. -/
theorem C9_sign_invariance (params1 params2 : List (String × Option String))
    (secret_key : String) (h : (sigFilter params1).Perm (sigFilter params2)) :
    calculate_md5_sign params1 secret_key = calculate_md5_sign params2 secret_key := by
  unfold calculate_md5_sign
  by_cases hs : secret_key = ""
  · simp [hs]
  · rw [if_neg hs, if_neg hs]
    unfold sigString sigSorted
    rw [insertionSort_pairLE_perm h]

/-- C9, witness: reordering the dict and adding a `sign` entry, a `key`
entry, an empty-valued entry and a `None`-valued entry leaves the
signature unchanged. -/
theorem C9_witness :
    (sigFilter [("b", some "2"), ("sign", some "z"), ("a", some "1")]).Perm
      (sigFilter [("a", some "1"), ("key", some "q"), ("b", some "2"),
        ("c", some ""), ("d", none)]) ∧
    calculate_md5_sign [("b", some "2"), ("sign", some "z"), ("a", some "1")] "S" =
      calculate_md5_sign [("a", some "1"), ("key", some "q"), ("b", some "2"),
        ("c", some ""), ("d", none)] "S" :=
  ⟨by decide,
   C9_sign_invariance [("b", some "2"), ("sign", some "z"), ("a", some "1")]
     [("a", some "1"), ("key", some "q"), ("b", some "2"), ("c", some ""), ("d", none)]
     "S" (by decide)⟩

/-! ## Claim theorems: the environment config loader -/

theorem dictUpsert_append [DecidableEq κ] (m : List (κ × β)) (k : κ) (v : β)
    (h : k ∉ m.map Prod.fst) : dictUpsert m k v = m ++ [(k, v)] := by
  induction m with
  | nil => rfl
  | cons kv rest ih =>
    simp only [List.map_cons, List.mem_cons] at h
    push_neg at h
    rw [dictUpsert, if_neg fun hh => h.1 hh.symm, ih h.2]
    rfl

/-- The loader's fold, started on any accumulator whose keys stay
disjoint from the incoming transformed keys, appends exactly the
prefixed entries, transformed and converted, in order. -/
theorem envLoad_foldl (pfx : String) (intP : String → Option ℤ) (floatP jsonP : String → Bool) :
    ∀ (environ : List (String × String)) (acc : List (String × PyValue)),
      ((acc.map Prod.fst) ++
        ((environ.filter fun kv => strStarts pfx kv.1).map
          fun kv => transformKey pfx kv.1)).Nodup →
      environ.foldl
        (fun config kv =>
          if strStarts pfx kv.1 then
            dictUpsert config (transformKey pfx kv.1) (convert_value intP floatP jsonP kv.2)
          else config) acc =
        acc ++ ((environ.filter fun kv => strStarts pfx kv.1).map
          fun kv => (transformKey pfx kv.1, convert_value intP floatP jsonP kv.2)) := by
  intro environ
  induction environ with
  | nil => intro acc _; simp
  | cons kv env ih =>
    intro acc h
    rw [List.foldl_cons]
    by_cases hs : strStarts pfx kv.1
    · rw [if_pos hs]
      have hfilter : (kv :: env).filter (fun kv => strStarts pfx kv.1) =
          kv :: env.filter fun kv => strStarts pfx kv.1 := by
        simp [List.filter_cons, hs]
      rw [hfilter] at h ⊢
      rw [List.map_cons] at h
      have hk : transformKey pfx kv.1 ∉ acc.map Prod.fst := by
        intro hmem
        exact (List.disjoint_of_nodup_append h) hmem (List.mem_cons_self _ _)
      rw [dictUpsert_append _ _ _ hk]
      have h' : (((acc ++ [(transformKey pfx kv.1, convert_value intP floatP jsonP kv.2)]).map
            Prod.fst) ++
          ((env.filter fun kv => strStarts pfx kv.1).map
            fun kv => transformKey pfx kv.1)).Nodup := by
        rw [List.map_append, List.append_assoc]
        simpa using h
      rw [ih _ h', List.map_cons]
      simp
    · rw [if_neg hs]
      have hfilter : (kv :: env).filter (fun kv => strStarts pfx kv.1) =
          env.filter fun kv => strStarts pfx kv.1 := by
        simp [List.filter_cons, hs]
      rw [hfilter] at h ⊢
      exact ih acc h

/-- C7, counterexample: the environment `APP_AB=x`, `APP_Ab=y` has
distinct raw names but both transform to the key `ab`; the dict
assignment `config[config_key] = config_value` keeps only the last
value (`y`), so `load` does not return every prefixed variable mapped
to its transformed key as the claim states. -/
theorem C7_counterexample :
    envLoad "APP_" (fun _ => none) (fun _ => false) (fun _ => false)
        [("APP_AB", "x"), ("APP_Ab", "y")] ≠
      (([("APP_AB", "x"), ("APP_Ab", "y")] : List (String × String)).filter
          fun kv => strStarts "APP_" kv.1).map
        fun kv => (transformKey "APP_" kv.1,
          convert_value (fun _ => none) (fun _ => false) (fun _ => false) kv.2) := by
  decide

/-- C7, amended: `EnvConfigLoader.load` returns exactly the environment
entries whose name starts with the prefix, each keyed by the
transformed name (prefix stripped, lower-cased, `__` replaced by `.`)
and valued by `_convert_value` of its value, provided the transformed
names are pairwise distinct (on a collision, dict assignment keeps only
the last value); an entry whose name lacks the prefix never appears. -/
theorem C7_env_load (pfx : String) (intP : String → Option ℤ) (floatP jsonP : String → Bool)
    (environ : List (String × String))
    (h : ((environ.filter fun kv => strStarts pfx kv.1).map
        fun kv => transformKey pfx kv.1).Nodup) :
    envLoad pfx intP floatP jsonP environ =
      (environ.filter fun kv => strStarts pfx kv.1).map
        fun kv => (transformKey pfx kv.1, convert_value intP floatP jsonP kv.2) := by
  have := envLoad_foldl pfx intP floatP jsonP environ [] (by simpa using h)
  simpa [envLoad] using this

/-- C7, witness: a three-variable environment loads to the two `APP_`
entries, transformed, and the `PATH` entry never appears. -/
theorem C7_witness :
    ((([("APP_LOG__LEVEL", "debug"), ("PATH", "/bin"), ("APP_DEBUG", "YES")] :
        List (String × String)).filter fun kv => strStarts "APP_" kv.1).map
      fun kv => transformKey "APP_" kv.1).Nodup ∧
    envLoad "APP_" (fun _ => none) (fun _ => false) (fun _ => false)
        [("APP_LOG__LEVEL", "debug"), ("PATH", "/bin"), ("APP_DEBUG", "YES")] =
      (([("APP_LOG__LEVEL", "debug"), ("PATH", "/bin"), ("APP_DEBUG", "YES")] :
          List (String × String)).filter fun kv => strStarts "APP_" kv.1).map
        fun kv => (transformKey "APP_" kv.1,
          convert_value (fun _ => none) (fun _ => false) (fun _ => false) kv.2) :=
  ⟨by decide,
   C7_env_load "APP_" (fun _ => none) (fun _ => false) (fun _ => false)
     [("APP_LOG__LEVEL", "debug"), ("PATH", "/bin"), ("APP_DEBUG", "YES")] (by decide)⟩

/-- C10: `_convert_value` tests the boolean word lists before any
numeric conversion, so `"1"` converts to `True` and `"0"` to `False` —
never to the integers 1 or 0, whatever `int()` would return — and any
value whose lower-casing is in a boolean word list converts to the
corresponding boolean. -/
theorem C10_bool_before_int (intP : String → Option ℤ) (floatP jsonP : String → Bool) :
    convert_value intP floatP jsonP "1" = .bool true ∧
    convert_value intP floatP jsonP "0" = .bool false ∧
    (∀ value, pyLower value ∈ ["true", "yes", "1", "on"] →
      convert_value intP floatP jsonP value = .bool true) ∧
    (∀ value, pyLower value ∈ ["false", "no", "0", "off"] →
      convert_value intP floatP jsonP value = .bool false) := by
  refine ⟨rfl, rfl, fun value hv => ?_, fun value hv => ?_⟩
  · rw [convert_value, if_pos hv]
  · have hneg : pyLower value ∉ ["true", "yes", "1", "on"] := by
      simp only [List.mem_cons, List.not_mem_nil, or_false] at hv ⊢
      rcases hv with h | h | h | h <;> rw [h] <;> decide
    rw [convert_value, if_neg hneg, if_pos hv]

/-- C10, witness: even with an `int()` behaviour that parses every
string, `"1"` and `"0"` load as booleans, as do `"TRUE"` and `"Off"`. -/
theorem C10_witness :
    convert_value (fun _ => some 1) (fun _ => false) (fun _ => false) "1" = .bool true ∧
    convert_value (fun _ => some 1) (fun _ => false) (fun _ => false) "0" = .bool false ∧
    pyLower "TRUE" ∈ ["true", "yes", "1", "on"] ∧
    convert_value (fun _ => some 1) (fun _ => false) (fun _ => false) "TRUE" = .bool true ∧
    pyLower "Off" ∈ ["false", "no", "0", "off"] ∧
    convert_value (fun _ => some 1) (fun _ => false) (fun _ => false) "Off" = .bool false :=
  ⟨(C10_bool_before_int (fun _ => some 1) (fun _ => false) (fun _ => false)).1,
   (C10_bool_before_int (fun _ => some 1) (fun _ => false) (fun _ => false)).2.1,
   by decide,
   (C10_bool_before_int (fun _ => some 1) (fun _ => false) (fun _ => false)).2.2.1 "TRUE"
     (by decide),
   by decide,
   (C10_bool_before_int (fun _ => some 1) (fun _ => false) (fun _ => false)).2.2.2 "Off"
     (by decide)⟩

end Spec2Proof
